import Mathlib

/-!
Shallow embedding of the span-to-content reconciliation engine of
`app/backend/prepdocslib/pdfparser.py`: the per-page classification of
character slots into plain text / table / figure regions
(`DocumentAnalysisParser.parse`), the page assembly loop, the table and
figure renderers (`table_to_html`, `figure_to_html`), and the simple
`LocalPdfParser` fallback.

External collaborators (Azure Document Intelligence, the image describer,
pymupdf rasterisation, blob storage) are modelled as oracles or omitted:
only the data they hand to the reconciliation core is represented.
Machine strings are `String`/`List Char`; all arithmetic is `Nat`/`Int`.
-/

namespace PrepDocs

/-- A contiguous character range in the document content buffer
(`DocumentSpan` of the analysis result). -/
structure Span where
  offset : Nat
  length : Nat
deriving DecidableEq

/-- A bounding region of a table or figure.  The polygon coordinates only
feed the external raster crop, so just the 1-indexed page number is kept. -/
structure BoundingRegion where
  page_number : Nat
deriving DecidableEq

/-- One cell of a `DocumentTable` (row/column index, optional spans, the
`kind` role string, and raw text content). -/
structure TableCell where
  row_index : Nat
  column_index : Nat
  kind : String
  column_span : Option Nat
  row_span : Option Nat
  content : String
deriving DecidableEq

/-- A table object of the analysis result. -/
structure DocumentTable where
  row_count : Nat
  cells : List TableCell
  spans : List Span
  bounding_regions : List BoundingRegion
deriving DecidableEq

/-- A figure object of the analysis result.  `caption` is the caption's
content string when a caption object is present. -/
structure DocumentFigure where
  spans : List Span
  bounding_regions : List BoundingRegion
  caption : Option String
deriving DecidableEq

/-- A page of the analysis result: 1-indexed page number and its spans
into the content buffer. -/
structure DocumentPage where
  page_number : Nat
  spans : List Span
deriving DecidableEq

/-- The analysis result consumed by `DocumentAnalysisParser.parse`. -/
structure AnalyzeResult where
  content : List Char
  pages : List DocumentPage
  tables : List DocumentTable
  figures : List DocumentFigure
deriving DecidableEq

/-- The output page record (`Page(page_num, offset, text)`).  `page_num`
is an integer because the source computes `page.page_number - 1` in
unbounded Python arithmetic. -/
structure Page where
  page_num : Int
  offset : Nat
  text : String
deriving DecidableEq

/-- One classification slot of the per-page mask: the `(ObjectType, idx)`
pairs `(NONE, None)`, `(TABLE, table_idx)`, `(FIGURE, figure_idx)` stored
in `mask_chars`. -/
inductive MaskChar where
  | none : MaskChar
  | table (idx : Nat) : MaskChar
  | figure (idx : Nat) : MaskChar
deriving DecidableEq

/-- The slot write `mask_chars[idx] = v` guarded by `if idx >= 0 and idx < page_length`:
the write is dropped when the (integer) index is out of range. -/
def writeSlot (mask : List MaskChar) (idx : Int) (v : MaskChar) : List MaskChar :=
  if 0 ≤ idx ∧ idx < (mask.length : Int) then mask.set idx.toNat v else mask

/-- The inner loop `for i in range(span.length): idx = span.offset -
page_offset + i; if 0 <= idx < page_length: mask_chars[idx] = v`. -/
def markSpan (v : MaskChar) (page_offset : Nat) (s : Span) (mask : List MaskChar) :
    List MaskChar :=
  (List.range s.length).foldl
    (fun m (i : Nat) => writeSlot m ((s.offset : Int) - (page_offset : Int) + (i : Int)) v)
    mask

/-- Marking every span of one region (`for span in table.spans: ...`). -/
def markRegion (v : MaskChar) (page_offset : Nat) (spans : List Span)
    (mask : List MaskChar) : List MaskChar :=
  spans.foldl (fun m s => markSpan v page_offset s m) mask

/-- The whole classification pass: initialise `page_length` slots to
`NONE`, mark the enumerated table regions, then the enumerated figure
regions (figures after tables, so they overwrite on overlap). -/
def buildMask (page_offset page_length : Nat) (tables : List DocumentTable)
    (figures : List DocumentFigure) : List MaskChar :=
  let m0 := List.replicate page_length MaskChar.none
  let m1 := tables.enum.foldl
    (fun m p => markRegion (MaskChar.table p.1) page_offset p.2.spans m) m0
  figures.enum.foldl
    (fun m p => markRegion (MaskChar.figure p.1) page_offset p.2.spans m) m1

/-- The condition that `span.offset - page_offset + i = local` hits local index `i` of the
page, expressed without integer subtraction. -/
def SpanCovers (s : Span) (page_offset i : Nat) : Prop :=
  s.offset ≤ page_offset + i ∧ page_offset + i < s.offset + s.length

instance (s : Span) (page_offset i : Nat) : Decidable (SpanCovers s page_offset i) := by
  unfold SpanCovers; infer_instance

/-! ## Region renderers (`table_to_html`, `figure_to_html`) -/

/-- One character of Python `html.escape(s, quote=True)`.  The source
performs sequential `str.replace` passes (`&` first, then `<`, `>`, `"`,
the apostrophe); since no replacement string contains a character that a
later pass rewrites except the `&` already emitted by the first pass,
the whole pipeline acts independently on each input character. -/
def escapeChar (c : Char) : List Char :=
  if c = '&' then "&amp;".data
  else if c = '<' then "&lt;".data
  else if c = '>' then "&gt;".data
  else if c = '\x22' then "&quot;".data
  else if c = '\x27' then "&#x27;".data
  else [c]

/-- Python `html.escape(s)` with default quoting. -/
def htmlEscape (s : String) : String :=
  String.mk ((s.data.map escapeChar).flatten)

/-- The cell tag choice: `"th" if (cell.kind == "columnHeader" or
cell.kind == "rowHeader") else "td"`. -/
def cellTag (cell : TableCell) : String :=
  if cell.kind = "columnHeader" ∨ cell.kind = "rowHeader" then "th" else "td"

/-- The fragment `if cell.column_span is not None and cell.column_span > 1:
cell_spans += f" colSpan=..."`. -/
def colSpanAttr (cell : TableCell) : String :=
  match cell.column_span with
  | some cs => if 1 < cs then " colSpan=" ++ toString cs else ""
  | Option.none => ""

/-- The matching `rowSpan` attribute fragment. -/
def rowSpanAttr (cell : TableCell) : String :=
  match cell.row_span with
  | some rs => if 1 < rs then " rowSpan=" ++ toString rs else ""
  | Option.none => ""

/-- The `cell_spans` accumulator: colSpan fragment then rowSpan fragment. -/
def cellSpanAttrs (cell : TableCell) : String :=
  colSpanAttr cell ++ rowSpanAttr cell

/-- The cell markup `f"<{tag}{cell_spans}>{html.escape(cell.content)}</{tag}>"`. -/
def renderCell (cell : TableCell) : String :=
  "<" ++ cellTag cell ++ cellSpanAttrs cell ++ ">" ++ htmlEscape cell.content
    ++ "</" ++ cellTag cell ++ ">"

/-- Python `sorted(cells, key=lambda cell: cell.column_index)`: a stable
sort by column index, modelled by insertion sort (which is stable). -/
def sortByCol (cells : List TableCell) : List TableCell :=
  cells.insertionSort (fun a b => a.column_index ≤ b.column_index)

/-- The row list comprehension: for each `i in range(table.row_count)`,
the cells with `row_index == i` in stable column order. -/
def tableRows (table : DocumentTable) : List (List TableCell) :=
  (List.range table.row_count).map
    (fun i => sortByCol (table.cells.filter (fun c => c.row_index == i)))

/-- One `<tr>` row of the emitted table. -/
def renderRow (cells : List TableCell) : String :=
  "<tr>" ++ String.join (cells.map renderCell) ++ "</tr>"

/-- The source method `DocumentAnalysisParser.table_to_html`. -/
def table_to_html (table : DocumentTable) : String :=
  "<figure><table>" ++ String.join ((tableRows table).map renderRow)
    ++ "</table></figure>"

/-- The source method `DocumentAnalysisParser.figure_to_html`.  The pymupdf crop and the
content-understanding `describe_image` call are external I/O, modelled by
the `describe` oracle; `figure_title` is
`(figure.caption and figure.caption.content) or ""`. -/
def figure_to_html (describe : DocumentFigure → String)
    (figure : DocumentFigure) : String :=
  let figure_title := match figure.caption with
    | some c => c
    | Option.none => ""
  "<figure><figcaption>" ++ figure_title ++ "<br>" ++ describe figure
    ++ "</figcaption></figure>"

/-- Figure markup as the spec sentence words it: title directly followed
by description inside the `figcaption`, with nothing in between.  Kept
separate from `figure_to_html` so the two can be compared. -/
def figureHtmlSpec (describe : DocumentFigure → String)
    (figure : DocumentFigure) : String :=
  let figure_title := match figure.caption with
    | some c => c
    | Option.none => ""
  "<figure><figcaption>" ++ figure_title ++ describe figure
    ++ "</figcaption></figure>"

/-! ## Page assembly -/

/-- One piece appended to `page_text` by the assembly loop: a literal
character slot, or the first (hence only) rendering of a region. -/
inductive PageItem where
  | plain (idx : Nat) : PageItem
  | table (idx : Nat) : PageItem
  | figure (idx : Nat) : PageItem
deriving DecidableEq

/-- The control flow of the assembly loop `for idx, mask_char in
enumerate(mask_chars)`, recorded as the ordered list of appended pieces;
`added` is the `added_objects` set of already-rendered `(kind, idx)`
pairs. -/
def assembleTrace : List (Nat × MaskChar) → List MaskChar → List PageItem
  | [], _ => []
  | (idx, MaskChar.none) :: rest, added => PageItem.plain idx :: assembleTrace rest added
  | (_, MaskChar.table k) :: rest, added =>
      if MaskChar.table k ∈ added then assembleTrace rest added
      else PageItem.table k :: assembleTrace rest (MaskChar.table k :: added)
  | (_, MaskChar.figure k) :: rest, added =>
      if MaskChar.figure k ∈ added then assembleTrace rest added
      else PageItem.figure k :: assembleTrace rest (MaskChar.figure k :: added)

/-- The characters each piece contributes: the source character
`form_recognizer_results.content[page_offset + idx]` for a plain slot
(`Option.none` models the `IndexError` of an out-of-range access), the
rendered markup of `tables_on_page[k]` / `figures_on_page[k]` otherwise. -/
def renderItem (content : List Char) (page_offset : Nat)
    (tables_on_page : List DocumentTable) (figures_on_page : List DocumentFigure)
    (describe : DocumentFigure → String) : PageItem → Option (List Char)
  | PageItem.plain idx => (content.get? (page_offset + idx)).map (fun c => [c])
  | PageItem.table k => (tables_on_page.get? k).map (fun tb => (table_to_html tb).data)
  | PageItem.figure k =>
      (figures_on_page.get? k).map (fun fg => (figure_to_html describe fg).data)

/-- Concatenation of the rendered pieces in trace order (the successive
`page_text +=` appends); fails if any piece fails. -/
def renderAll (r : PageItem → Option (List Char)) : List PageItem → Option (List Char)
  | [] => some []
  | it :: rest =>
      match r it, renderAll r rest with
      | some piece, some restChars => some (piece ++ restChars)
      | _, _ => Option.none

/-- The assembled page text before post-processing. -/
def assemblePage (content : List Char) (page_offset : Nat)
    (tables_on_page : List DocumentTable) (figures_on_page : List DocumentFigure)
    (describe : DocumentFigure → String) (mask : List MaskChar) : Option (List Char) :=
  renderAll (renderItem content page_offset tables_on_page figures_on_page describe)
    (assembleTrace mask.enum [])

/-! ## Post-processing (`replace("<!-- PageBreak -->", "")` then `strip()`) -/

/-- The marker `"<!-- PageBreak -->"` as characters (length 18). -/
def pageBreakChars : List Char := "<!-- PageBreak -->".data

/-- Whether `l` starts with the pattern `p`. -/
def startsWithChars : List Char → List Char → Bool
  | [], _ => true
  | _ :: _, [] => false
  | p :: ps, c :: cs => c = p && startsWithChars ps cs

/-- Left-to-right non-overlapping removal of the PageBreak marker, the
behaviour of Python `str.replace(marker, "")`.  Fueled so it is
structurally recursive; each step consumes at least one character, so
`fuel = length` never runs out. -/
def removePageBreaksFuel : Nat → List Char → List Char
  | 0, l => l
  | _ + 1, [] => []
  | fuel + 1, c :: cs =>
      if startsWithChars pageBreakChars (c :: cs) then
        removePageBreaksFuel fuel (List.drop 17 cs)
      else c :: removePageBreaksFuel fuel cs

/-- The removal `page_text.replace("<!-- PageBreak -->", "")`. -/
def removePageBreaks (l : List Char) : List Char :=
  removePageBreaksFuel l.length l

/-- The ASCII whitespace stripped by Python `str.strip()`. -/
def isPyWs (c : Char) : Bool :=
  c = ' ' || c = '\t' || c = '\n' || c = '\r' || c = '\x0b' || c = '\x0c'

/-- Python `str.strip()`: drop leading and trailing whitespace. -/
def pyStrip (l : List Char) : List Char :=
  ((l.dropWhile isPyWs).reverse.dropWhile isPyWs).reverse

/-- The two post-processing steps applied to the assembled page text. -/
def postprocess (l : List Char) : List Char :=
  pyStrip (removePageBreaks l)

/-! ## `DocumentAnalysisParser.parse` orchestration -/

/-- The filter `tables_on_page`: tables whose first bounding region sits on this
page (Python truthiness of `table.bounding_regions` requires a nonempty
list). -/
def tablesOnPage (res : AnalyzeResult) (page_number : Nat) : List DocumentTable :=
  res.tables.filter (fun t =>
    match t.bounding_regions with
    | [] => false
    | r :: _ => r.page_number == page_number)

/-- The filter `figures_on_page`: same filter over figures, but only when
`use_content_understanding` is set — otherwise the list stays empty. -/
def figuresOnPage (res : AnalyzeResult) (useCU : Bool) (page_number : Nat) :
    List DocumentFigure :=
  if useCU then
    res.figures.filter (fun f =>
      match f.bounding_regions with
      | [] => false
      | r :: _ => r.page_number == page_number)
  else []

/-- Processing of one page of the analysis result: frame from
`page.spans[0]` (`Option.none` models the `IndexError` on an empty span
list), classification, assembly, post-processing. -/
def processPage (res : AnalyzeResult) (describe : DocumentFigure → String)
    (useCU : Bool) (page : DocumentPage) : Option (List Char) :=
  match page.spans with
  | [] => Option.none
  | s :: _ =>
      let tables := tablesOnPage res page.page_number
      let figures := figuresOnPage res useCU page.page_number
      (assemblePage res.content s.offset tables figures describe
        (buildMask s.offset s.length tables figures)).map postprocess

/-- The page loop of `DocumentAnalysisParser.parse` with its running
`offset` accumulator: each emitted `Page` carries `page.page_number - 1`,
the current offset, and the post-processed text; the offset then grows by
`len(page_text)`. -/
def parsePages (res : AnalyzeResult) (describe : DocumentFigure → String)
    (useCU : Bool) : List DocumentPage → Nat → Option (List Page)
  | [], _ => some []
  | page :: rest, offset =>
      (processPage res describe useCU page).bind (fun chars =>
        (parsePages res describe useCU rest (offset + chars.length)).map (fun ps =>
          Page.mk ((page.page_number : Int) - 1) offset (String.mk chars) :: ps))

/-- The whole `DocumentAnalysisParser.parse` over all pages of the result. -/
def parse (res : AnalyzeResult) (describe : DocumentFigure → String)
    (useCU : Bool) : Option (List Page) :=
  parsePages res describe useCU res.pages 0

/-- The fallback `LocalPdfParser.parse`: pypdf text extraction is external, so the
extracted per-page strings are the input; pages are emitted with the
`enumerate` index as `page_num` and the same offset accumulation. -/
def localPdfParseAux : List String → Nat → Nat → List Page
  | [], _, _ => []
  | t :: ts, n, offset => Page.mk (n : Int) offset t :: localPdfParseAux ts (n + 1) (offset + t.length)

/-- The fallback `LocalPdfParser.parse` run from the first page. -/
def localPdfParse (pageTexts : List String) : List Page :=
  localPdfParseAux pageTexts 0 0

/-! ## Concrete fixtures used to instantiate the theorems -/

/-- A table whose only span covers the whole two-character page. -/
def tableWhole : DocumentTable :=
  { row_count := 0, cells := [], spans := [⟨0, 2⟩], bounding_regions := [⟨1⟩] }

/-- A figure whose only span covers the same two-character page. -/
def figureWhole : DocumentFigure :=
  { spans := [⟨0, 2⟩], bounding_regions := [⟨1⟩], caption := Option.none }

/-- A two-page analysis result with one character of content per page. -/
def resTwoPages : AnalyzeResult :=
  { content := "ab".data,
    pages := [⟨1, [⟨0, 1⟩]⟩, ⟨2, [⟨1, 1⟩]⟩],
    tables := [], figures := [] }

/-- A result whose single page consists only of the PageBreak marker. -/
def resMarkerOnly : AnalyzeResult :=
  { content := "<!-- PageBreak -->".data,
    pages := [⟨1, [⟨0, 18⟩]⟩],
    tables := [], figures := [] }

/-- A result whose single page is plain text surrounded by blanks. -/
def resPlain : AnalyzeResult :=
  { content := " hi ".data,
    pages := [⟨1, [⟨0, 4⟩]⟩],
    tables := [], figures := [] }

/-- A plain body cell sitting at row 0, column 1. -/
def cellRight : TableCell :=
  { row_index := 0, column_index := 1, kind := "",
    column_span := Option.none, row_span := Option.none, content := "x" }

/-- A header cell sitting at row 0, column 0. -/
def cellLeft : TableCell :=
  { row_index := 0, column_index := 0, kind := "columnHeader",
    column_span := some 2, row_span := Option.none, content := "y" }

/-- A one-row table whose cells arrive in reversed column order. -/
def tableOneRow : DocumentTable :=
  { row_count := 1, cells := [cellRight, cellLeft], spans := [], bounding_regions := [] }

/-- A captioned figure fixture. -/
def figureCaptioned : DocumentFigure :=
  { spans := [], bounding_regions := [], caption := some "T" }

/-- The trace item a non-plain slot contributes when first rendered. -/
def itemOfTag : MaskChar → PageItem
  | MaskChar.none => PageItem.plain 0
  | MaskChar.table k => PageItem.table k
  | MaskChar.figure k => PageItem.figure k

/-- Each page's offset continues exactly where the previous page's text
ended. -/
def ChainOff : Nat → List Page → Prop
  | _, [] => True
  | off, p :: ps => p.offset = off ∧ ChainOff (off + p.text.length) ps

instance : IsTotal TableCell (fun a b => a.column_index ≤ b.column_index) :=
  ⟨fun a b => Nat.le_total a.column_index b.column_index⟩

instance : IsTrans TableCell (fun a b => a.column_index ≤ b.column_index) :=
  ⟨fun a b c hab hbc => Nat.le_trans hab hbc⟩

/-! ## Lemmas about the classification pass -/

theorem foldl_preserve {α β : Type} (g : β → α → β) (P : β → Prop)
    (h : ∀ b a, P b → P (g b a)) : ∀ (l : List α) (b : β), P b → P (l.foldl g b) := by
  intro l
  induction l with
  | nil => intro b hb; exact hb
  | cons a t ih => intro b hb; exact ih (g b a) (h b a hb)

theorem length_writeSlot (mask : List MaskChar) (idx : Int) (v : MaskChar) :
    (writeSlot mask idx v).length = mask.length := by
  unfold writeSlot
  split
  · exact mask.length_set _ _
  · rfl

theorem length_markSpan (v : MaskChar) (po : Nat) (s : Span) (mask : List MaskChar) :
    (markSpan v po s mask).length = mask.length := by
  unfold markSpan
  exact foldl_preserve _ (fun m => m.length = mask.length)
    (fun m i hm => (length_writeSlot m _ v).trans hm) _ mask rfl

theorem length_markRegion (v : MaskChar) (po : Nat) (spans : List Span)
    (mask : List MaskChar) : (markRegion v po spans mask).length = mask.length := by
  unfold markRegion
  exact foldl_preserve _ (fun m => m.length = mask.length)
    (fun m s hm => (length_markSpan v po s m).trans hm) _ mask rfl

theorem length_buildMask (po len : Nat) (tables : List DocumentTable)
    (figures : List DocumentFigure) : (buildMask po len tables figures).length = len := by
  unfold buildMask
  have h1 : ∀ (ps : List (Nat × DocumentTable)) (m : List MaskChar),
      (ps.foldl (fun m p => markRegion (MaskChar.table p.1) po p.2.spans m) m).length
        = m.length := by
    intro ps m
    exact foldl_preserve _ (fun x => x.length = m.length)
      (fun x p hx => (length_markRegion _ po _ x).trans hx) ps m rfl
  have h2 : ∀ (ps : List (Nat × DocumentFigure)) (m : List MaskChar),
      (ps.foldl (fun m p => markRegion (MaskChar.figure p.1) po p.2.spans m) m).length
        = m.length := by
    intro ps m
    exact foldl_preserve _ (fun x => x.length = m.length)
      (fun x p hx => (length_markRegion _ po _ x).trans hx) ps m rfl
  rw [h2, h1, List.length_replicate]

theorem get?_writeSlot (mask : List MaskChar) (idx : Int) (v : MaskChar) (i : Nat) :
    (writeSlot mask idx v).get? i =
      if idx = (i : Int) ∧ i < mask.length then some v else mask.get? i := by
  unfold writeSlot
  by_cases h : 0 ≤ idx ∧ idx < (mask.length : Int)
  · rw [if_pos h, List.get?_set]
    by_cases h2 : idx = (i : Int)
    · have hnat : idx.toNat = i := by omega
      have hi : i < mask.length := by omega
      rw [if_pos hnat, if_pos ⟨h2, hi⟩, List.get?_eq_get hi]
      rfl
    · have hnat : ¬ idx.toNat = i := by omega
      rw [if_neg hnat, if_neg (fun hc => h2 hc.1)]
  · rw [if_neg h, if_neg (by
      intro hc
      obtain ⟨h1, h2⟩ := hc
      exact h ⟨by omega, by omega⟩)]

theorem get?_markRange (v : MaskChar) (po o : Nat) :
    ∀ (n : Nat) (mask : List MaskChar) (i : Nat), i < mask.length →
    ((List.range n).foldl
        (fun m (i : Nat) => writeSlot m ((o : Int) - (po : Int) + (i : Int)) v) mask).get? i
      = if o ≤ po + i ∧ po + i < o + n then some v else mask.get? i := by
  intro n
  induction n with
  | zero =>
    intro mask i hi
    simp only [List.range_zero, List.foldl_nil]
    rw [if_neg (by omega)]
  | succ n ih =>
    intro mask i hi
    rw [List.range_succ, List.foldl_append, List.foldl_cons, List.foldl_nil]
    rw [get?_writeSlot]
    have hlen : ((List.range n).foldl
        (fun m (i : Nat) => writeSlot m ((o : Int) - (po : Int) + (i : Int)) v) mask).length
        = mask.length := by
      exact foldl_preserve _ (fun m => m.length = mask.length)
        (fun m j hm => (length_writeSlot m _ v).trans hm) _ mask rfl
    rw [hlen, ih mask i hi]
    by_cases hc : (o : Int) - (po : Int) + (n : Int) = (i : Int)
    · have h1 : o ≤ po + i ∧ po + i < o + (n + 1) := by omega
      rw [if_pos ⟨hc, hi⟩, if_pos h1]
    · have hiff : (o ≤ po + i ∧ po + i < o + n) ↔
          (o ≤ po + i ∧ po + i < o + (n + 1)) := by omega
      rw [if_neg (by
        intro hcc
        exact hc hcc.1)]
      rw [if_congr hiff rfl rfl]

theorem get?_markSpan (v : MaskChar) (po : Nat) (s : Span) (mask : List MaskChar)
    (i : Nat) (hi : i < mask.length) :
    (markSpan v po s mask).get? i =
      if SpanCovers s po i then some v else mask.get? i := by
  unfold markSpan SpanCovers
  exact get?_markRange v po s.offset s.length mask i hi

theorem markSpan_eq_of_not_covers (v : MaskChar) (po : Nat) (s : Span)
    (mask : List MaskChar) (h : ∀ i, i < mask.length → ¬ SpanCovers s po i) :
    markSpan v po s mask = mask := by
  apply List.ext_get?
  intro n
  by_cases hn : n < mask.length
  · rw [get?_markSpan v po s mask n hn, if_neg (h n hn)]
  · rw [List.get?_eq_none.mpr (by rw [length_markSpan]; omega),
      List.get?_eq_none.mpr (by omega)]

theorem get?_markRegion (v : MaskChar) (po : Nat) (spans : List Span)
    (mask : List MaskChar) (i : Nat) (hi : i < mask.length) :
    (markRegion v po spans mask).get? i =
      if ∃ s ∈ spans, SpanCovers s po i then some v else mask.get? i := by
  unfold markRegion
  induction spans generalizing mask with
  | nil => simp
  | cons s t ih =>
    rw [List.foldl_cons]
    have hlen : (markSpan v po s mask).length = mask.length := length_markSpan v po s mask
    rw [ih (markSpan v po s mask) (by omega)]
    by_cases ht : ∃ x ∈ t, SpanCovers x po i
    · rw [if_pos ht]
      rcases ht with ⟨x, hx, hcov⟩
      rw [if_pos ⟨x, List.mem_cons_of_mem s hx, hcov⟩]
    · rw [if_neg ht, get?_markSpan v po s mask i hi]
      by_cases hs : SpanCovers s po i
      · rw [if_pos hs, if_pos ⟨s, List.mem_cons_self s t, hs⟩]
      · rw [if_neg hs]
        rw [if_neg (by
          intro hc
          rcases hc with ⟨x, hx, hcov⟩
          rcases List.mem_cons.mp hx with h1 | h1
          · exact hs (h1 ▸ hcov)
          · exact ht ⟨x, h1, hcov⟩)]

/-! ## Lemmas about the assembly trace -/

theorem count_assembleTrace (t : MaskChar) (ht : t ≠ MaskChar.none) :
    ∀ (l : List (Nat × MaskChar)) (added : List MaskChar),
    (assembleTrace l added).count (itemOfTag t) =
      if t ∈ l.map Prod.snd ∧ t ∉ added then 1 else 0 := by
  intro l
  induction l with
  | nil =>
    intro added
    simp [assembleTrace]
  | cons p rest ih =>
    intro added
    obtain ⟨idx, mc⟩ := p
    cases mc with
    | none =>
      have hplain : (PageItem.plain idx == itemOfTag t) = false := by
        cases t with
        | none => exact absurd rfl ht
        | table k => simp [itemOfTag]
        | figure k => simp [itemOfTag]
      have hmem : (t ∈ (MaskChar.none :: rest.map Prod.snd)) ↔ t ∈ rest.map Prod.snd := by
        constructor
        · intro h
          rcases List.mem_cons.mp h with h | h
          · exact absurd h ht
          · exact h
        · exact List.mem_cons_of_mem _
      simp only [assembleTrace, List.count_cons, hplain, List.map_cons, ih added]
      by_cases h1 : t ∈ rest.map Prod.snd <;> by_cases h2 : t ∈ added <;>
        simp [h1, h2, hmem]
    | table k =>
      by_cases hadd : MaskChar.table k ∈ added
      · have htr : assembleTrace ((idx, MaskChar.table k) :: rest) added
            = assembleTrace rest added := by
          simp [assembleTrace, hadd]
        rw [htr, ih added, List.map_cons]
        by_cases heq : t = MaskChar.table k
        · subst heq
          simp [hadd]
        · have : (t ∈ MaskChar.table k :: rest.map Prod.snd) ↔ t ∈ rest.map Prod.snd := by
            constructor
            · intro h
              rcases List.mem_cons.mp h with h | h
              · exact absurd h heq
              · exact h
            · exact List.mem_cons_of_mem _
          rw [if_congr (and_congr_left' this) rfl rfl]
      · have htr : assembleTrace ((idx, MaskChar.table k) :: rest) added
            = PageItem.table k :: assembleTrace rest (MaskChar.table k :: added) := by
          simp [assembleTrace, hadd]
        rw [htr, List.count_cons, ih (MaskChar.table k :: added), List.map_cons]
        by_cases heq : t = MaskChar.table k
        · subst heq
          have : MaskChar.table k ∈ MaskChar.table k :: added := List.mem_cons_self _ _
          simp [itemOfTag, this, hadd]
        · have hbeq : (PageItem.table k == itemOfTag t) = false := by
            cases t with
            | none => exact absurd rfl ht
            | table j =>
              have : k ≠ j := fun h => heq (by rw [h])
              simp [itemOfTag, this]
            | figure j => simp [itemOfTag]
          have hmem1 : (t ∈ MaskChar.table k :: rest.map Prod.snd) ↔ t ∈ rest.map Prod.snd := by
            constructor
            · intro h
              rcases List.mem_cons.mp h with h | h
              · exact absurd h heq
              · exact h
            · exact List.mem_cons_of_mem _
          have hmem2 : (t ∉ MaskChar.table k :: added) ↔ t ∉ added := by
            constructor
            · intro h hc
              exact h (List.mem_cons_of_mem _ hc)
            · intro h hc
              rcases List.mem_cons.mp hc with hcc | hcc
              · exact heq hcc
              · exact h hcc
          by_cases h1 : t ∈ rest.map Prod.snd <;> by_cases h2 : t ∈ added <;>
            simp [h1, h2, hmem1, hmem2, hbeq, heq]
    | figure k =>
      by_cases hadd : MaskChar.figure k ∈ added
      · have htr : assembleTrace ((idx, MaskChar.figure k) :: rest) added
            = assembleTrace rest added := by
          simp [assembleTrace, hadd]
        rw [htr, ih added, List.map_cons]
        by_cases heq : t = MaskChar.figure k
        · subst heq
          simp [hadd]
        · have : (t ∈ MaskChar.figure k :: rest.map Prod.snd) ↔ t ∈ rest.map Prod.snd := by
            constructor
            · intro h
              rcases List.mem_cons.mp h with h | h
              · exact absurd h heq
              · exact h
            · exact List.mem_cons_of_mem _
          rw [if_congr (and_congr_left' this) rfl rfl]
      · have htr : assembleTrace ((idx, MaskChar.figure k) :: rest) added
            = PageItem.figure k :: assembleTrace rest (MaskChar.figure k :: added) := by
          simp [assembleTrace, hadd]
        rw [htr, List.count_cons, ih (MaskChar.figure k :: added), List.map_cons]
        by_cases heq : t = MaskChar.figure k
        · subst heq
          have : MaskChar.figure k ∈ MaskChar.figure k :: added := List.mem_cons_self _ _
          simp [itemOfTag, this, hadd]
        · have hbeq : (PageItem.figure k == itemOfTag t) = false := by
            cases t with
            | none => exact absurd rfl ht
            | table j => simp [itemOfTag]
            | figure j =>
              have : k ≠ j := fun h => heq (by rw [h])
              simp [itemOfTag, this]
          have hmem1 : (t ∈ MaskChar.figure k :: rest.map Prod.snd) ↔ t ∈ rest.map Prod.snd := by
            constructor
            · intro h
              rcases List.mem_cons.mp h with h | h
              · exact absurd h heq
              · exact h
            · exact List.mem_cons_of_mem _
          have hmem2 : (t ∉ MaskChar.figure k :: added) ↔ t ∉ added := by
            constructor
            · intro h hc
              exact h (List.mem_cons_of_mem _ hc)
            · intro h hc
              rcases List.mem_cons.mp hc with hcc | hcc
              · exact heq hcc
              · exact h hcc
          by_cases h1 : t ∈ rest.map Prod.snd <;> by_cases h2 : t ∈ added <;>
            simp [h1, h2, hmem1, hmem2, hbeq, heq]

theorem figuresFold_unchanged (po : Nat) :
    ∀ (ps : List (Nat × DocumentFigure)) (m : List MaskChar) (i : Nat), i < m.length →
    (∀ p ∈ ps, ∀ s ∈ p.2.spans, ¬ SpanCovers s po i) →
    (ps.foldl (fun m p => markRegion (MaskChar.figure p.1) po p.2.spans m) m).get? i
      = m.get? i := by
  intro ps
  induction ps with
  | nil =>
    intro m i hi h
    rfl
  | cons p t ih =>
    intro m i hi h
    rw [List.foldl_cons]
    have hlen : (markRegion (MaskChar.figure p.1) po p.2.spans m).length = m.length :=
      length_markRegion _ po _ m
    rw [ih (markRegion (MaskChar.figure p.1) po p.2.spans m) i (by omega)
      (fun q hq s hs => h q (List.mem_cons_of_mem p hq) s hs)]
    rw [get?_markRegion _ po _ m i hi]
    rw [if_neg (by
      intro hc
      rcases hc with ⟨s, hs, hcov⟩
      exact h p (List.mem_cons_self p t) s hs hcov)]

theorem figuresFold_covered (po : Nat) :
    ∀ (ps : List (Nat × DocumentFigure)) (m : List MaskChar) (i : Nat), i < m.length →
    (∃ p ∈ ps, ∃ s ∈ p.2.spans, SpanCovers s po i) →
    ∃ j, (ps.foldl (fun m p => markRegion (MaskChar.figure p.1) po p.2.spans m) m).get? i
      = some (MaskChar.figure j) ∧ j ∈ ps.map Prod.fst := by
  intro ps
  induction ps with
  | nil =>
    intro m i hi h
    rcases h with ⟨p, hp, _⟩
    exact absurd hp (List.not_mem_nil p)
  | cons p t ih =>
    intro m i hi h
    rw [List.foldl_cons]
    have hlen : (markRegion (MaskChar.figure p.1) po p.2.spans m).length = m.length :=
      length_markRegion _ po _ m
    by_cases ht : ∃ q ∈ t, ∃ s ∈ q.2.spans, SpanCovers s po i
    · obtain ⟨j, hj, hjm⟩ := ih (markRegion (MaskChar.figure p.1) po p.2.spans m) i
        (by omega) ht
      exact ⟨j, hj, List.mem_cons_of_mem _ (by simpa using hjm)⟩
    · have hp : ∃ s ∈ p.2.spans, SpanCovers s po i := by
        rcases h with ⟨q, hq, hcov⟩
        rcases List.mem_cons.mp hq with h1 | h1
        · exact h1 ▸ hcov
        · exact absurd ⟨q, h1, hcov⟩ ht
      have hnone : ∀ q ∈ t, ∀ s ∈ q.2.spans, ¬ SpanCovers s po i := by
        intro q hq s hs hcov
        exact ht ⟨q, hq, s, hs, hcov⟩
      rw [figuresFold_unchanged po t (markRegion (MaskChar.figure p.1) po p.2.spans m) i
        (by omega) hnone]
      rw [get?_markRegion _ po _ m i hi, if_pos hp]
      exact ⟨p.1, rfl, List.mem_cons_self _ _⟩

/-! ## Lemmas for the plain-text-only page -/

theorem assembleTrace_all_plain :
    ∀ (l : List (Nat × MaskChar)) (added : List MaskChar),
    (∀ p ∈ l, p.2 = MaskChar.none) →
    assembleTrace l added = l.map (fun p => PageItem.plain p.1) := by
  intro l
  induction l with
  | nil => intro added h; rfl
  | cons p rest ih =>
    intro added h
    obtain ⟨idx, mc⟩ := p
    have hmc : mc = MaskChar.none := h (idx, mc) (List.mem_cons_self _ _)
    subst hmc
    simp only [assembleTrace, List.map_cons]
    rw [ih added (fun q hq => h q (List.mem_cons_of_mem _ hq))]

theorem enum_replicate_snd (n : Nat) (x : MaskChar) :
    ∀ p ∈ (List.replicate n x).enum, p.2 = x := by
  intro p hp
  have hm : p.2 ∈ (List.replicate n x).enum.map Prod.snd := List.mem_map_of_mem _ hp
  rw [List.enum_map_snd] at hm
  exact List.eq_of_mem_replicate hm

theorem trace_replicate_none (n : Nat) :
    assembleTrace (List.replicate n MaskChar.none).enum []
      = (List.range n).map PageItem.plain := by
  rw [assembleTrace_all_plain _ _ (enum_replicate_snd n MaskChar.none)]
  have h : (List.replicate n MaskChar.none).enum.map (fun p => PageItem.plain p.1)
      = ((List.replicate n MaskChar.none).enum.map Prod.fst).map PageItem.plain := by
    rw [List.map_map]
    rfl
  rw [h, List.enum_map_fst, List.length_replicate]

theorem renderAll_cons (r : PageItem → Option (List Char)) (it : PageItem)
    (rest : List PageItem) :
    renderAll r (it :: rest) =
      match r it, renderAll r rest with
      | some piece, some restChars => some (piece ++ restChars)
      | _, _ => Option.none := rfl

theorem renderAll_plain_range (content : List Char) (po : Nat)
    (T : List DocumentTable) (F : List DocumentFigure) (d : DocumentFigure → String) :
    ∀ (n k : Nat), po + k + n ≤ content.length →
    renderAll (renderItem content po T F d) ((List.range' k n).map PageItem.plain)
      = some ((content.drop (po + k)).take n) := by
  intro n
  induction n with
  | zero =>
    intro k h
    simp [renderAll]
  | succ n ih =>
    intro k h
    rw [List.range'_succ, List.map_cons]
    have hlt : po + k < content.length := by omega
    have hrest := ih (k + 1) (by omega)
    have hitem : renderItem content po T F d (PageItem.plain k)
        = some [content[po + k]] := by
      show (content.get? (po + k)).map (fun c => [c]) = some [content[po + k]]
      rw [List.get?_eq_getElem?, List.getElem?_eq_getElem hlt]
      rfl
    have harg : po + (k + 1) = po + k + 1 := by omega
    rw [harg] at hrest
    rw [renderAll_cons, hitem, hrest]
    show some ([content[po + k]] ++ (content.drop (po + k + 1)).take n)
      = some ((content.drop (po + k)).take (n + 1))
    rw [List.drop_eq_getElem_cons hlt]
    rfl

/-! ## Offset and page-number bookkeeping -/

theorem chainOff_get? : ∀ (ps : List Page) (off : Nat), ChainOff off ps →
    ∀ (i : Nat) (p q : Page), ps.get? i = some p → ps.get? (i + 1) = some q →
    q.offset = p.offset + p.text.length := by
  intro ps
  induction ps with
  | nil =>
    intro off h i p q hp hq
    simp at hp
  | cons x t ih =>
    intro off h i p q hp hq
    obtain ⟨hx, hchain⟩ := h
    cases i with
    | zero =>
      have hp2 : x = p := by simpa using hp
      subst hp2
      have hq2 : t.get? 0 = some q := by simpa using hq
      cases t with
      | nil => simp at hq2
      | cons y t2 =>
        obtain ⟨hy, _⟩ := hchain
        have hq3 : y = q := by simpa using hq2
        subst hq3
        rw [hy, hx]
    | succ n =>
      exact ih (off + x.text.length) hchain n p q (by simpa using hp) (by simpa using hq)

theorem chainOff_parsePages (res : AnalyzeResult) (d : DocumentFigure → String)
    (u : Bool) : ∀ (l : List DocumentPage) (off : Nat) (ps : List Page),
    parsePages res d u l off = some ps → ChainOff off ps := by
  intro l
  induction l with
  | nil =>
    intro off ps h
    simp [parsePages] at h
    subst h
    trivial
  | cons page rest ih =>
    intro off ps h
    unfold parsePages at h
    cases hp : processPage res d u page with
    | none => rw [hp] at h; simp at h
    | some chars =>
      rw [hp, Option.some_bind] at h
      cases hr : parsePages res d u rest (off + chars.length) with
      | none => rw [hr] at h; simp at h
      | some ps2 =>
        rw [hr, Option.map_some'] at h
        have h2 : Page.mk ((page.page_number : Int) - 1) off (String.mk chars) :: ps2
            = ps := by simpa using h
        subst h2
        exact ⟨rfl, ih (off + chars.length) ps2 hr⟩

theorem chainOff_localAux : ∀ (ts : List String) (n off : Nat),
    ChainOff off (localPdfParseAux ts n off) := by
  intro ts
  induction ts with
  | nil => intro n off; trivial
  | cons t rest ih => intro n off; exact ⟨rfl, ih (n + 1) (off + t.length)⟩

theorem parsePages_page_num (res : AnalyzeResult) (d : DocumentFigure → String)
    (u : Bool) : ∀ (l : List DocumentPage) (off : Nat) (ps : List Page),
    parsePages res d u l off = some ps →
    ∀ (i : Nat) (page : DocumentPage) (p : Page),
      l.get? i = some page → ps.get? i = some p →
      p.page_num = (page.page_number : Int) - 1 := by
  intro l
  induction l with
  | nil =>
    intro off ps h i page p hpage hp
    simp at hpage
  | cons pg rest ih =>
    intro off ps h i page p hpage hp
    unfold parsePages at h
    cases hp0 : processPage res d u pg with
    | none => rw [hp0] at h; simp at h
    | some chars =>
      rw [hp0, Option.some_bind] at h
      cases hr : parsePages res d u rest (off + chars.length) with
      | none => rw [hr] at h; simp at h
      | some ps2 =>
        rw [hr, Option.map_some'] at h
        have h2 : Page.mk ((pg.page_number : Int) - 1) off (String.mk chars) :: ps2
            = ps := by simpa using h
        subst h2
        cases i with
        | zero =>
          have : pg = page := by simpa using hpage
          subst this
          have : Page.mk ((pg.page_number : Int) - 1) off (String.mk chars) = p := by
            simpa using hp
          subst this
          rfl
        | succ n =>
          exact ih (off + chars.length) ps2 hr n page p (by simpa using hpage)
            (by simpa using hp)

theorem localAux_page_num : ∀ (ts : List String) (n off i : Nat) (p : Page),
    (localPdfParseAux ts n off).get? i = some p →
    p.page_num = ((n + i : Nat) : Int) := by
  intro ts
  induction ts with
  | nil =>
    intro n off i p h
    simp [localPdfParseAux] at h
  | cons t rest ih =>
    intro n off i p h
    cases i with
    | zero =>
      have : Page.mk (n : Int) off t = p := by simpa [localPdfParseAux] using h
      subst this
      simp
    | succ m =>
      have h2 : (localPdfParseAux rest (n + 1) (off + t.length)).get? m = some p := by
        simpa [localPdfParseAux] using h
      rw [ih (n + 1) (off + t.length) m p h2]
      have : n + 1 + m = n + (m + 1) := by omega
      rw [this]

theorem buildMask_no_regions (po len : Nat) :
    buildMask po len [] [] = List.replicate len MaskChar.none := rfl

theorem processPage_no_regions (res : AnalyzeResult) (d : DocumentFigure → String)
    (u : Bool) (page : DocumentPage) (s : Span) (rest : List Span)
    (hs : page.spans = s :: rest)
    (ht : tablesOnPage res page.page_number = [])
    (hf : figuresOnPage res u page.page_number = [])
    (hlen : s.offset + s.length ≤ res.content.length) :
    processPage res d u page
      = some (postprocess ((res.content.drop s.offset).take s.length)) := by
  simp only [processPage, hs, ht, hf]
  rw [show buildMask s.offset s.length [] [] = List.replicate s.length MaskChar.none
    from rfl]
  unfold assemblePage
  rw [trace_replicate_none, List.range_eq_range']
  rw [renderAll_plain_range res.content s.offset [] [] d s.length 0 (by omega)]
  simp

/-! ## Lemmas about HTML escaping -/

theorem escapeChar_no_angle (d c : Char) (h : c ∈ escapeChar d) :
    c ≠ '<' ∧ c ≠ '>' := by
  unfold escapeChar at h
  split_ifs at h with h1 h2 h3 h4 h5
  · rw [show "&amp;".data = ['&', 'a', 'm', 'p', ';'] from rfl] at h
    fin_cases h <;> exact ⟨by decide, by decide⟩
  · rw [show "&lt;".data = ['&', 'l', 't', ';'] from rfl] at h
    fin_cases h <;> exact ⟨by decide, by decide⟩
  · rw [show "&gt;".data = ['&', 'g', 't', ';'] from rfl] at h
    fin_cases h <;> exact ⟨by decide, by decide⟩
  · rw [show "&quot;".data = ['&', 'q', 'u', 'o', 't', ';'] from rfl] at h
    fin_cases h <;> exact ⟨by decide, by decide⟩
  · rw [show "&#x27;".data = ['&', '#', 'x', '2', '7', ';'] from rfl] at h
    fin_cases h <;> exact ⟨by decide, by decide⟩
  · have hc : c = d := by simpa using h
    subst hc
    exact ⟨h2, h3⟩

theorem htmlEscape_no_angle (s : String) (c : Char) (h : c ∈ (htmlEscape s).data) :
    c ≠ '<' ∧ c ≠ '>' := by
  unfold htmlEscape at h
  rw [List.mem_flatten] at h
  rcases h with ⟨piece, hp, hc⟩
  rw [List.mem_map] at hp
  rcases hp with ⟨d, _, rfl⟩
  exact escapeChar_no_angle d c hc

/-! ## Lemmas about the table renderer -/

theorem sortByCol_perm (l : List TableCell) : (sortByCol l).Perm l :=
  List.perm_insertionSort _ l

theorem sortByCol_sorted (l : List TableCell) :
    (sortByCol l).Pairwise (fun a b => a.column_index ≤ b.column_index) :=
  List.sorted_insertionSort _ l

theorem sortByCol_filter (l : List TableCell) (k : Nat) :
    (sortByCol l).filter (fun c => c.column_index == k)
      = l.filter (fun c => c.column_index == k) := by
  unfold sortByCol
  have hpair : (l.filter (fun c => c.column_index == k)).Pairwise
      (fun a b : TableCell => a.column_index ≤ b.column_index) := by
    rw [List.pairwise_iff_forall_sublist]
    intro a b hab
    have ha : a ∈ l.filter (fun c => c.column_index == k) := hab.subset (by simp)
    have hb : b ∈ l.filter (fun c => c.column_index == k) := hab.subset (by simp)
    have ha2 := (List.mem_filter.mp ha).2
    have hb2 := (List.mem_filter.mp hb).2
    simp only [beq_iff_eq] at ha2 hb2
    omega
  have h1 : List.Sublist (l.filter (fun c => c.column_index == k))
      (l.insertionSort (fun a b => a.column_index ≤ b.column_index)) :=
    List.sublist_insertionSort hpair (List.filter_sublist l)
  have h2 : (l.filter (fun c => c.column_index == k)).filter
      (fun c => c.column_index == k) = l.filter (fun c => c.column_index == k) :=
    List.filter_eq_self.mpr (fun a ha => (List.mem_filter.mp ha).2)
  have h3 : List.Sublist (l.filter (fun c => c.column_index == k))
      ((l.insertionSort (fun a b => a.column_index ≤ b.column_index)).filter
        (fun c => c.column_index == k)) := by
    have hh := List.Sublist.filter (fun c : TableCell => c.column_index == k) h1
    rwa [h2] at hh
  have h4 : ((l.insertionSort (fun a b => a.column_index ≤ b.column_index)).filter
      (fun c => c.column_index == k)).Perm (l.filter (fun c => c.column_index == k)) :=
    (List.perm_insertionSort _ l).filter _
  exact (List.Sublist.eq_of_length h3 h4.length_eq.symm).symm

theorem length_tableRows (t : DocumentTable) : (tableRows t).length = t.row_count := by
  simp [tableRows]

theorem tableRows_get? (t : DocumentTable) (i : Nat) (row : List TableCell)
    (h : (tableRows t).get? i = some row) :
    i < t.row_count ∧ row = sortByCol (t.cells.filter (fun c => c.row_index == i)) := by
  unfold tableRows at h
  rw [List.get?_map] at h
  have hlt : i < t.row_count := by
    by_contra hge
    rw [List.get?_eq_none.mpr (by rw [List.length_range]; omega)] at h
    simp at h
  rw [List.get?_range hlt] at h
  refine ⟨hlt, ?_⟩
  have := (Option.map_some' i _) ▸ h
  simpa using this.symm

/-! ## The claims -/

/-- C1 (amended): a region that still owns at least one classification
slot after overlap resolution is rendered exactly once by the assembly
loop — regardless of how many slots it occupies and whether they form one
contiguous run or several disjoint runs.  (A region whose slots were all
overwritten by later-classified regions is rendered zero times, which is
why the unconditional form of the claim fails.) -/
theorem claim_C1_rendered_exactly_once (mask : List MaskChar) (k : Nat) :
    (MaskChar.table k ∈ mask →
      (assembleTrace mask.enum []).count (PageItem.table k) = 1)
    ∧ (MaskChar.figure k ∈ mask →
      (assembleTrace mask.enum []).count (PageItem.figure k) = 1) := by
  constructor
  · intro hmem
    have h := count_assembleTrace (MaskChar.table k)
      (fun hc => MaskChar.noConfusion hc) mask.enum []
    rw [List.enum_map_snd] at h
    rw [show itemOfTag (MaskChar.table k) = PageItem.table k from rfl] at h
    rw [h, if_pos ⟨hmem, List.not_mem_nil _⟩]
  · intro hmem
    have h := count_assembleTrace (MaskChar.figure k)
      (fun hc => MaskChar.noConfusion hc) mask.enum []
    rw [List.enum_map_snd] at h
    rw [show itemOfTag (MaskChar.figure k) = PageItem.figure k from rfl] at h
    rw [h, if_pos ⟨hmem, List.not_mem_nil _⟩]

/-- C1 witness: a table region occupying two disjoint slot runs (slots 0
and 2) is still rendered exactly once. -/
theorem claim_C1_witness :
    (assembleTrace ([MaskChar.table 0, MaskChar.none, MaskChar.table 0]
      : List MaskChar).enum []).count (PageItem.table 0) = 1 :=
  (claim_C1_rendered_exactly_once
    [MaskChar.table 0, MaskChar.none, MaskChar.table 0] 0).1 (by decide)

/-- C1 counterexample: a table whose only span lies fully inside the page
is rendered zero times — not exactly once — when a figure span covers the
same slots, because the figure pass overwrites every slot of the table.
The page text consists of the figure markup alone. -/
theorem claim_C1_counterexample :
    (assembleTrace (buildMask 0 2 [tableWhole] [figureWhole]).enum []).count
        (PageItem.table 0) = 0
    ∧ processPage
        { content := "ab".data, pages := [⟨1, [⟨0, 2⟩]⟩],
          tables := [tableWhole], figures := [figureWhole] }
        (fun _ => "D") true ⟨1, [⟨0, 2⟩]⟩
      = some ((figure_to_html (fun _ => "D") figureWhole).data) := by
  constructor
  · decide
  · decide

/-- C2: when a table span and a figure span both cover local index `i` of
a page, the final classification slot carries a `Figure` tag (figures are
applied after tables, last writer wins), and the assembly renders that
slot's run through `figure_to_html`, not `table_to_html`. -/
theorem claim_C2_figure_wins (content : List Char) (d : DocumentFigure → String)
    (po len : Nat) (tables : List DocumentTable) (figures : List DocumentFigure)
    (i : Nat) (hi : i < len)
    (ht : ∃ tb ∈ tables, ∃ s ∈ tb.spans, SpanCovers s po i)
    (hf : ∃ fg ∈ figures, ∃ s ∈ fg.spans, SpanCovers s po i) :
    ∃ j, j < figures.length ∧
      (buildMask po len tables figures).get? i = some (MaskChar.figure j) ∧
      ∃ fg, figures.get? j = some fg ∧
        renderItem content po tables figures d (PageItem.figure j)
          = some ((figure_to_html d fg).data) := by
  have hm1len : (tables.enum.foldl
      (fun m p => markRegion (MaskChar.table p.1) po p.2.spans m)
      (List.replicate len MaskChar.none)).length = len := by
    have h := foldl_preserve
      (fun m (p : Nat × DocumentTable) => markRegion (MaskChar.table p.1) po p.2.spans m)
      (fun m => m.length = len)
      (fun m p hm => (length_markRegion _ po _ m).trans hm)
      tables.enum (List.replicate len MaskChar.none) (by simp)
    exact h
  rcases hf with ⟨fg, hfg, hcov⟩
  have hfe : ∃ p ∈ figures.enum, ∃ s ∈ p.2.spans, SpanCovers s po i := by
    have h2 : fg ∈ figures.enum.map Prod.snd := by
      rw [List.enum_map_snd]
      exact hfg
    rcases List.mem_map.mp h2 with ⟨p, hp, hpe⟩
    exact ⟨p, hp, by rw [hpe]; exact hcov⟩
  obtain ⟨j, hj, hjm⟩ := figuresFold_covered po figures.enum
    (tables.enum.foldl (fun m p => markRegion (MaskChar.table p.1) po p.2.spans m)
      (List.replicate len MaskChar.none)) i (by omega) hfe
  have hjlt : j < figures.length := by
    rw [List.enum_map_fst] at hjm
    exact List.mem_range.mp hjm
  refine ⟨j, hjlt, hj, figures.get ⟨j, hjlt⟩, List.get?_eq_get hjlt, ?_⟩
  show (figures.get? j).map (fun fg => (figure_to_html d fg).data)
    = some ((figure_to_html d (figures.get ⟨j, hjlt⟩)).data)
  rw [List.get?_eq_get hjlt]
  rfl

/-- C2 witness: the whole-page table and whole-page figure overlap at
index 0 of a two-slot page and the slot ends up `Figure`-tagged. -/
theorem claim_C2_witness :
    ∃ j, j < [figureWhole].length ∧
      (buildMask 0 2 [tableWhole] [figureWhole]).get? 0 = some (MaskChar.figure j) ∧
      ∃ fg, [figureWhole].get? j = some fg ∧
        renderItem "ab".data 0 [tableWhole] [figureWhole] (fun _ => "D")
          (PageItem.figure j) = some ((figure_to_html (fun _ => "D") fg).data) :=
  claim_C2_figure_wins "ab".data (fun _ => "D") 0 2 [tableWhole] [figureWhole] 0
    (by decide)
    ⟨tableWhole, by decide, ⟨0, 2⟩, by decide, by decide⟩
    ⟨figureWhole, by decide, ⟨0, 2⟩, by decide, by decide⟩

/-- C3: offsets accumulate exactly: for consecutive emitted pages,
`Page[i+1].offset = Page[i].offset + len(Page[i].text)` in emitted-text
units, for `DocumentAnalysisParser.parse` and for `LocalPdfParser.parse`. -/
theorem claim_C3_offset_monotonic :
    (∀ (res : AnalyzeResult) (d : DocumentFigure → String) (u : Bool)
      (ps : List Page) (i : Nat) (p q : Page),
      parse res d u = some ps → ps.get? i = some p → ps.get? (i + 1) = some q →
      q.offset = p.offset + p.text.length)
    ∧ (∀ (ts : List String) (i : Nat) (p q : Page),
      (localPdfParse ts).get? i = some p → (localPdfParse ts).get? (i + 1) = some q →
      q.offset = p.offset + p.text.length) := by
  constructor
  · intro res d u ps i p q hparse hp hq
    exact chainOff_get? ps 0 (chainOff_parsePages res d u res.pages 0 ps hparse) i p q hp hq
  · intro ts i p q hp hq
    exact chainOff_get? _ 0 (chainOff_localAux ts 0 0) i p q hp hq

/-- C3 witness: on a concrete two-page document the second page's offset
is the first page's offset plus its emitted length. -/
theorem claim_C3_witness :
    (Page.mk 1 1 "b").offset = (Page.mk 0 0 "a").offset + (Page.mk 0 0 "a").text.length :=
  claim_C3_offset_monotonic.1 resTwoPages (fun _ => "") true
    [Page.mk 0 0 "a", Page.mk 1 1 "b"] 0 (Page.mk 0 0 "a") (Page.mk 1 1 "b")
    (by decide) rfl rfl

/-- C4 (amended): a page with no tables and no figures assembles to the
raw source slice of its first span after removal of the
`"<!-- PageBreak -->"` markers and whitespace trimming.  (The claim's
"after whitespace trim (no other transformation)" misses the marker
removal, which the counterexample exhibits.) -/
theorem claim_C4_no_regions_text (res : AnalyzeResult) (d : DocumentFigure → String)
    (u : Bool) (page : DocumentPage) (s : Span) (rest : List Span)
    (hs : page.spans = s :: rest)
    (ht : tablesOnPage res page.page_number = [])
    (hf : figuresOnPage res u page.page_number = [])
    (hlen : s.offset + s.length ≤ res.content.length) :
    processPage res d u page
      = some (pyStrip (removePageBreaks ((res.content.drop s.offset).take s.length))) :=
  processPage_no_regions res d u page s rest hs ht hf hlen

/-- C4 witness: a region-free page assembles to its trimmed raw slice. -/
theorem claim_C4_witness :
    processPage resPlain (fun _ => "") true ⟨1, [⟨0, 4⟩]⟩
      = some (pyStrip (removePageBreaks ((resPlain.content.drop 0).take 4))) :=
  claim_C4_no_regions_text resPlain (fun _ => "") true ⟨1, [⟨0, 4⟩]⟩ ⟨0, 4⟩ []
    rfl (by decide) (by decide) (by decide)

/-- C4 counterexample: a region-free page whose raw slice is exactly the
PageBreak marker assembles to the empty string, while the trimmed raw
slice is the marker itself — so the assembled text is NOT the raw slice
after whitespace trim alone. -/
theorem claim_C4_counterexample :
    processPage resMarkerOnly (fun _ => "") true ⟨1, [⟨0, 18⟩]⟩ = some []
    ∧ pyStrip ((resMarkerOnly.content.drop 0).take 18) = "<!-- PageBreak -->".data
    ∧ "<!-- PageBreak -->".data ≠ ([] : List Char) := by
  refine ⟨by decide, by decide, by decide⟩

/-- C5 (amended): the rendered figure markup is
`<figure><figcaption>{title}<br>{description}</figcaption></figure>`: a
literal `<br>` separates the caption title from the describer's output.
(The claim's format without the `<br>` fails, see the counterexample.) -/
theorem claim_C5_figure_markup (d : DocumentFigure → String) (fg : DocumentFigure) :
    figure_to_html d fg = "<figure><figcaption>"
      ++ (match fg.caption with | some c => c | Option.none => "")
      ++ "<br>" ++ d fg ++ "</figcaption></figure>" := rfl

/-- C5 counterexample: with caption title `"T"` and description `"D"`
the code renders `...T<br>D...`, not the `...TD...` the claim states. -/
theorem claim_C5_counterexample :
    figure_to_html (fun _ => "D") figureCaptioned
      ≠ figureHtmlSpec (fun _ => "D") figureCaptioned := by
  decide

/-- C6: cell text is HTML-escaped before insertion (`renderCell` embeds
`htmlEscape cell.content`), the escaper maps `&`, `<`, `>` and the two
quote characters to entities, and no character of escaped content is a
raw angle bracket. -/
theorem claim_C6_cells_escaped :
    (∀ (s : String) (c : Char), c ∈ (htmlEscape s).data → c ≠ '<' ∧ c ≠ '>')
    ∧ (∀ cell : TableCell, renderCell cell
        = "<" ++ cellTag cell ++ cellSpanAttrs cell ++ ">" ++ htmlEscape cell.content
          ++ "</" ++ cellTag cell ++ ">")
    ∧ escapeChar '&' = "&amp;".data ∧ escapeChar '<' = "&lt;".data
    ∧ escapeChar '>' = "&gt;".data ∧ escapeChar '\x22' = "&quot;".data
    ∧ escapeChar '\x27' = "&#x27;".data :=
  ⟨htmlEscape_no_angle, fun _ => rfl, by decide, by decide, by decide, by decide, by decide⟩

/-- C6 witness: the character `a` of the escaped cell text `"<a>"` is not
an angle bracket. -/
theorem claim_C6_witness : ('a' : Char) ≠ '<' ∧ ('a' : Char) ≠ '>' :=
  claim_C6_cells_escaped.1 "<a>" 'a' (by decide)

/-- C7: `table_to_html` wraps the rows in `<figure><table>`; there is one
row per `i < row_count`; row `i` is a stable column-sorted permutation of
the cells with `row_index = i` (ties keep original cell order); the tag
is `th` exactly for column or row headers; the span attributes appear
exactly when the span value is greater than one. -/
theorem claim_C7_table_structure :
    (∀ t : DocumentTable, table_to_html t
        = "<figure><table>" ++ String.join ((tableRows t).map renderRow)
          ++ "</table></figure>")
    ∧ (∀ t : DocumentTable, (tableRows t).length = t.row_count)
    ∧ (∀ (t : DocumentTable) (i : Nat) (row : List TableCell),
        (tableRows t).get? i = some row →
        row.Perm (t.cells.filter (fun c => c.row_index == i))
        ∧ row.Pairwise (fun a b => a.column_index ≤ b.column_index)
        ∧ ∀ k : Nat, row.filter (fun c => c.column_index == k)
            = (t.cells.filter (fun c => c.row_index == i)).filter
              (fun c => c.column_index == k))
    ∧ (∀ cell : TableCell,
        (cellTag cell = "th" ↔ (cell.kind = "columnHeader" ∨ cell.kind = "rowHeader"))
        ∧ (cellTag cell = "td" ↔ ¬(cell.kind = "columnHeader" ∨ cell.kind = "rowHeader")))
    ∧ (∀ (cell : TableCell) (cs : Nat), cell.column_span = some cs →
        (1 < cs → colSpanAttr cell = " colSpan=" ++ toString cs)
        ∧ (¬ 1 < cs → colSpanAttr cell = ""))
    ∧ (∀ cell : TableCell, cell.column_span = Option.none → colSpanAttr cell = "")
    ∧ (∀ (cell : TableCell) (rs : Nat), cell.row_span = some rs →
        (1 < rs → rowSpanAttr cell = " rowSpan=" ++ toString rs)
        ∧ (¬ 1 < rs → rowSpanAttr cell = ""))
    ∧ (∀ cell : TableCell, cell.row_span = Option.none → rowSpanAttr cell = "") := by
  refine ⟨fun t => rfl, length_tableRows, ?_, ?_, ?_, ?_, ?_, ?_⟩
  · intro t i row h
    obtain ⟨hlt, hrow⟩ := tableRows_get? t i row h
    subst hrow
    exact ⟨sortByCol_perm _, sortByCol_sorted _, fun k => sortByCol_filter _ k⟩
  · intro cell
    unfold cellTag
    by_cases h : cell.kind = "columnHeader" ∨ cell.kind = "rowHeader"
    · rw [if_pos h]
      exact ⟨⟨fun _ => h, fun _ => rfl⟩, ⟨fun hc => absurd hc (by decide), fun hc => absurd h hc⟩⟩
    · rw [if_neg h]
      exact ⟨⟨fun hc => absurd hc (by decide), fun hc => absurd hc h⟩, ⟨fun _ => h, fun _ => rfl⟩⟩
  · intro cell cs hcs
    have he : colSpanAttr cell = if 1 < cs then " colSpan=" ++ toString cs else "" := by
      unfold colSpanAttr
      rw [hcs]
    constructor
    · intro hgt
      rw [he, if_pos hgt]
    · intro hle
      rw [he, if_neg hle]
  · intro cell hnone
    unfold colSpanAttr
    rw [hnone]
  · intro cell rs hrs
    have he : rowSpanAttr cell = if 1 < rs then " rowSpan=" ++ toString rs else "" := by
      unfold rowSpanAttr
      rw [hrs]
    constructor
    · intro hgt
      rw [he, if_pos hgt]
    · intro hle
      rw [he, if_neg hle]
  · intro cell hnone
    unfold rowSpanAttr
    rw [hnone]

/-- C7 witness: the single row of `tableOneRow` is a permutation of its
cells with row index 0 (the sort reorders the reversed cells). -/
theorem claim_C7_witness :
    ([cellLeft, cellRight] : List TableCell).Perm
      (tableOneRow.cells.filter (fun c => c.row_index == 0)) :=
  (claim_C7_table_structure.2.2.1 tableOneRow 0 [cellLeft, cellRight] (by decide)).1

/-- C8: span classification is total and length-preserving for every
input (every slot write lands inside the array), and a span whose
translated indices all fall outside `[0, content_length)` is a no-op. -/
theorem claim_C8_classification_total :
    (∀ (po len : Nat) (tables : List DocumentTable) (figures : List DocumentFigure),
      (buildMask po len tables figures).length = len)
    ∧ (∀ (v : MaskChar) (po : Nat) (s : Span) (mask : List MaskChar),
      (∀ i, i < mask.length → ¬ SpanCovers s po i) → markSpan v po s mask = mask) :=
  ⟨length_buildMask, markSpan_eq_of_not_covers⟩

/-- C8 witness: a malformed span starting far beyond a three-slot page is
silently dropped. -/
theorem claim_C8_witness :
    markSpan (MaskChar.table 0) 0 ⟨100, 5⟩ (List.replicate 3 MaskChar.none)
      = List.replicate 3 MaskChar.none :=
  claim_C8_classification_total.2 (MaskChar.table 0) 0 ⟨100, 5⟩
    (List.replicate 3 MaskChar.none)
    (by
      intro i hi hcov
      have hi3 : i < 3 := by simpa using hi
      have h1 : 100 ≤ 0 + i := hcov.1
      omega)

/-- C9: every page emitted by `DocumentAnalysisParser.parse` carries
`page_num = page.page_number - 1` (0-indexed output from the 1-indexed
source), and `LocalPdfParser.parse` numbers pages by their 0-indexed
position. -/
theorem claim_C9_page_num :
    (∀ (res : AnalyzeResult) (d : DocumentFigure → String) (u : Bool)
      (ps : List Page) (i : Nat) (page : DocumentPage) (p : Page),
      parse res d u = some ps → res.pages.get? i = some page → ps.get? i = some p →
      p.page_num = (page.page_number : Int) - 1)
    ∧ (∀ (ts : List String) (i : Nat) (p : Page),
      (localPdfParse ts).get? i = some p → p.page_num = (i : Int)) := by
  constructor
  · intro res d u ps i page p hparse hpage hp
    exact parsePages_page_num res d u res.pages 0 ps hparse i page p hpage hp
  · intro ts i p h
    have h2 := localAux_page_num ts 0 0 i p h
    simpa using h2

/-- C9 witness: the first emitted page of the concrete two-page document
has `page_num = 1 - 1 = 0`. -/
theorem claim_C9_witness :
    (Page.mk 0 0 "a").page_num = ((1 : Nat) : Int) - 1 :=
  claim_C9_page_num.1 resTwoPages (fun _ => "") true
    [Page.mk 0 0 "a", Page.mk 1 1 "b"] 0 ⟨1, [⟨0, 1⟩]⟩ (Page.mk 0 0 "a")
    (by decide) rfl rfl

/-- C10: only `page.spans[0]` determines the page frame: the page's
output is unchanged when the later spans are dropped, and the
classification array has length `spans[0].length`. -/
theorem claim_C10_first_span_only (res : AnalyzeResult) (d : DocumentFigure → String)
    (u : Bool) (page : DocumentPage) (s : Span) (rest : List Span)
    (hs : page.spans = s :: rest) :
    processPage res d u page = processPage res d u ⟨page.page_number, [s]⟩
    ∧ (buildMask s.offset s.length (tablesOnPage res page.page_number)
        (figuresOnPage res u page.page_number)).length = s.length := by
  constructor
  · cases page with
    | mk pn spans =>
      simp only at hs
      subst hs
      rfl
  · exact length_buildMask _ _ _ _

/-- C10 witness: dropping a second span that covers different characters
does not change the page's output. -/
theorem claim_C10_witness :
    processPage resPlain (fun _ => "") true ⟨1, [⟨0, 2⟩, ⟨2, 2⟩]⟩
      = processPage resPlain (fun _ => "") true ⟨1, [⟨0, 2⟩]⟩ :=
  (claim_C10_first_span_only resPlain (fun _ => "") true ⟨1, [⟨0, 2⟩, ⟨2, 2⟩]⟩
    ⟨0, 2⟩ [⟨2, 2⟩] rfl).1

end PrepDocs
